import Mathlib

/-!
Verification of the belief-tree search core of the tapir POMDP planner.

The definitions below are a shallow embedding of `src/solver/Solver.cpp` and
`src/solver/Vector.cpp`.  C++ `double` values are modelled as rationals,
`long`/index values as naturals or integers, and belief-node statistics as a
function from (belief node id, action id) keys to (total Q, visit count)
pairs.  `BeliefNode::updateQValue` itself lives in `BeliefNode.cpp`, which is
not part of the sources here; it is modelled from the spec as an additive
update of the per-(node, action) total Q and visit count.
-/

namespace Tapir

/-- Per-(belief node, action) statistics: total Q value and visit count,
keyed by `(node id, action id)`. -/
abbrev QState : Type := Nat × Nat → ℚ × ℤ

/-- Modelled from the spec: `BeliefNode::updateQValue(action, dq, dn)`
(declared in `BeliefNode.hpp`, implemented outside the given sources) adds
`dq` to the action's total Q and `dn` to its visit count. -/
def updQ (t : QState) (k : Nat × Nat) (dq : ℚ) (dn : ℤ) : QState :=
  fun k' => if k' = k then ((t k').1 + dq, (t k').2 + dn) else t k'

/-- The all-zero statistics table. -/
def qZero : QState := fun _ => (0, 0)

/-- One `HistoryEntry` of a `HistorySequence`: owning belief node, the action
taken there (`none` models a null `action_` pointer), the discount at this
depth, the immediate reward, the cached `totalDiscountedReward_`, and the
`hasBeenBackedUp_` flag. -/
structure Entry where
  node : Nat
  action : Option Nat
  discount : ℚ
  reward : ℚ
  tdr : ℚ
  backedUp : Bool
deriving DecidableEq, Repr

/-- Default entry used with `List.getD`. -/
def dEntry : Entry := ⟨0, none, 0, 0, 0, false⟩

/-- The `(node, action)` key an entry's `updateQValue` call addresses.  The
C++ code dereferences `action_` unconditionally for non-final entries; a
`none` action on a non-final entry would be undefined behaviour there, so the
`getD 0` default is never relevant in any defined execution. -/
def entryKey (e : Entry) : Nat × Nat := (e.node, e.action.getD 0)

/-- Embedding of `Solver::backup`: the reverse iteration unrolled as recursion over the suffix
after the current entry: processing `backupAux e rest t` handles the suffix
`rest` (closer to the leaf) first, exactly as the reverse iterator visits the
last entry first.  Returns the rewritten entries, the updated statistics and
the running total at the current entry. -/
def backupAux : Entry → List Entry → QState → List Entry × QState × ℚ
  | e, [], t =>
    match e.action with
    | none => ([e], t, e.tdr)
    | some _ => ([{ e with tdr := e.discount * e.reward }], t,
        e.discount * e.reward)
  | e, e2 :: rest, t =>
    let r := backupAux e2 rest t
    let newTotal := e.discount * e.reward + r.2.2
    if e.backedUp then
      ({ e with tdr := newTotal } :: r.1,
        updQ r.2.1 (entryKey e) (newTotal - e.tdr) 0, newTotal)
    else
      ({ e with tdr := newTotal, backedUp := true } :: r.1,
        updQ r.2.1 (entryKey e) newTotal 1, newTotal)

/-- Embedding of `Solver::backup` on a whole sequence.  The C++ code dereferences
`rbegin()` unconditionally, so the empty case is undefined behaviour there
(sequences are non-empty by invariant); it is mapped to a no-op. -/
def backup : List Entry → QState → List Entry × QState
  | [], t => ([], t)
  | e :: rest, t => ((backupAux e rest t).1, (backupAux e rest t).2.1)

/-- Embedding of `Solver::undoBackup`, same recursion scheme; the entry paired with an
empty suffix is the final entry, which the C++ loop skips (`itHist++` before
the loop).  The `Nat` result counts the `"ERROR: Backup not yet done"`
messages printed to `cerr`. -/
def undoAux : Entry → List Entry → QState → List Entry × QState × Nat
  | e, [], t => ([e], t, 0)
  | e, e2 :: rest, t =>
    let r := undoAux e2 rest t
    if e.backedUp then
      ({ e with backedUp := false } :: r.1,
        updQ r.2.1 (entryKey e) (-e.tdr) (-1), r.2.2)
    else
      (e :: r.1, r.2.1, r.2.2 + 1)

/-- Embedding of `Solver::undoBackup` on a whole sequence (empty case as in `backup`). -/
def undoBackup : List Entry → QState → List Entry × QState × Nat
  | [], t => ([], t, 0)
  | e :: rest, t => undoAux e rest t

/-- The discounted suffix sum that claim C1 asserts: the sum over the
remaining entries of `discount * reward`, except that a final entry whose
action was never set contributes its pre-set `totalDiscountedReward_`
(its rollout estimate) instead. -/
def suffixTotal : List Entry → ℚ
  | [] => 0
  | [e] =>
    match e.action with
    | none => e.tdr
    | some _ => e.discount * e.reward
  | e :: e2 :: rest => e.discount * e.reward + suffixTotal (e2 :: rest)

lemma backupAux_length (rest : List Entry) : ∀ (e : Entry) (t : QState),
    ((backupAux e rest t).1).length = rest.length + 1 := by
  induction rest with
  | nil =>
    intro e t
    cases h : e.action <;> simp [backupAux, h]
  | cons e2 rest ih =>
    intro e t
    by_cases hb : e.backedUp <;> simp [backupAux, hb, ih]

lemma backupAux_total (rest : List Entry) : ∀ (e : Entry) (t : QState),
    (backupAux e rest t).2.2 = suffixTotal (e :: rest) := by
  induction rest with
  | nil =>
    intro e t
    cases h : e.action <;> simp [backupAux, suffixTotal, h]
  | cons e2 rest ih =>
    intro e t
    by_cases hb : e.backedUp <;> simp [backupAux, suffixTotal, hb, ih]

lemma backupAux_tdr (rest : List Entry) : ∀ (e : Entry) (t : QState)
    (i : Nat), i < rest.length + 1 →
    (((backupAux e rest t).1).getD i dEntry).tdr =
      suffixTotal ((e :: rest).drop i) := by
  induction rest with
  | nil =>
    intro e t i hi
    have hi0 : i = 0 := by simp at hi; omega
    subst hi0
    cases h : e.action <;> simp [backupAux, suffixTotal, h]
  | cons e2 rest ih =>
    intro e t i hi
    cases i with
    | zero =>
      by_cases hb : e.backedUp <;>
        simp [backupAux, suffixTotal, hb, backupAux_total]
    | succ j =>
      have hj : j < rest.length + 1 := by
        simpa [Nat.succ_lt_succ_iff] using hi
      by_cases hb : e.backedUp <;>
        simpa [backupAux, hb] using ih e2 t j hj

/-- Claim C1: after `Solver::backup(seq)`, every entry `i` of the sequence
has `totalDiscountedReward` equal to the sum over `j ≥ i` of
`discount[j] * reward[j]`, where the final entry contributes its pre-set
rollout estimate when no action was taken there. -/
theorem backup_totalDiscountedReward (entries : List Entry) (t : QState)
    (i : Nat) (hne : entries ≠ []) (hi : i < entries.length) :
    (((backup entries t).1).getD i dEntry).tdr =
      suffixTotal (entries.drop i) := by
  cases entries with
  | nil => exact absurd rfl hne
  | cons e rest =>
    have hi' : i < rest.length + 1 := by simpa using hi
    simpa [backup] using backupAux_tdr rest e t i hi'

/-- Witness for C1 at a concrete two-entry sequence whose final entry holds a
pre-set rollout estimate. -/
theorem backup_totalDiscountedReward_witness :
    ([⟨1, some 0, 1/2, 3, 0, false⟩, ⟨2, none, 1/4, 0, 7, false⟩] :
        List Entry) ≠ [] ∧
    (((backup [⟨1, some 0, 1/2, 3, 0, false⟩, ⟨2, none, 1/4, 0, 7, false⟩]
        qZero).1).getD 0 dEntry).tdr =
      suffixTotal (([⟨1, some 0, 1/2, 3, 0, false⟩,
        ⟨2, none, 1/4, 0, 7, false⟩] : List Entry).drop 0) :=
  ⟨by simp,
    backup_totalDiscountedReward
      [⟨1, some 0, 1/2, 3, 0, false⟩, ⟨2, none, 1/4, 0, 7, false⟩]
      qZero 0 (by simp) (by simp)⟩

lemma updQ_cancel (t : QState) (k : Nat × Nat) (dq : ℚ) (dn : ℤ) :
    updQ (updQ t k dq dn) k (-dq) (-dn) = t := by
  funext k'
  by_cases h : k' = k <;> simp [updQ, h]

lemma updQ_comm (t : QState) (k1 k2 : Nat × Nat) (d1 d2 : ℚ) (n1 n2 : ℤ) :
    updQ (updQ t k1 d1 n1) k2 d2 n2 = updQ (updQ t k2 d2 n2) k1 d1 n1 := by
  funext k'
  rcases eq_or_ne k' k1 with h1 | h1
  · rcases eq_or_ne k' k2 with h2 | h2
    · have hk : k1 = k2 := h1.symm.trans h2
      subst hk
      subst h1
      simp [updQ, Prod.ext_iff, add_assoc, add_comm, add_left_comm]
    · subst h1
      simp [updQ, h2]
  · rcases eq_or_ne k' k2 with h2 | h2
    · subst h2
      simp [updQ, h1]
    · simp [updQ, h1, h2]

lemma undoAux_entries_indep (rest : List Entry) : ∀ (e : Entry)
    (t t' : QState), (undoAux e rest t).1 = (undoAux e rest t').1 ∧
      (undoAux e rest t).2.2 = (undoAux e rest t').2.2 := by
  induction rest with
  | nil => intro e t t'; simp [undoAux]
  | cons e2 rest ih =>
    intro e t t'
    by_cases hb : e.backedUp <;>
      simp [undoAux, hb, (ih e2 t t').1, (ih e2 t t').2]

lemma undoAux_updQ (rest : List Entry) : ∀ (e : Entry) (t : QState)
    (k : Nat × Nat) (dq : ℚ) (dn : ℤ),
    (undoAux e rest (updQ t k dq dn)).2.1 =
      updQ (undoAux e rest t).2.1 k dq dn := by
  induction rest with
  | nil => intro e t k dq dn; simp [undoAux]
  | cons e2 rest ih =>
    intro e t k dq dn
    by_cases hb : e.backedUp
    · simp only [undoAux, hb, if_true]
      rw [ih e2 t k dq dn, updQ_comm]
    · simp only [undoAux, hb, if_false, Bool.false_eq_true]
      exact ih e2 t k dq dn

lemma backup_undo_main (rest : List Entry) : ∀ (e : Entry) (t : QState),
    (∀ x ∈ (e :: rest).dropLast, x.backedUp = false) →
    (undoBackup (backupAux e rest t).1 (backupAux e rest t).2.1).2.1 = t ∧
    (undoBackup (backupAux e rest t).1 (backupAux e rest t).2.1).2.2 = 0 ∧
    (∀ x ∈ (undoBackup (backupAux e rest t).1
        (backupAux e rest t).2.1).1.dropLast, x.backedUp = false) := by
  induction rest with
  | nil =>
    intro e t _
    cases h : e.action <;> simp [backupAux, undoBackup, undoAux, h]
  | cons e2 rest ih =>
    intro e t hfresh
    have he : e.backedUp = false := by
      have : e ∈ (e :: e2 :: rest).dropLast := by
        simp [List.dropLast]
      exact hfresh e this
    have hfresh2 : ∀ x ∈ (e2 :: rest).dropLast, x.backedUp = false := by
      intro x hx
      refine hfresh x ?_
      simp [List.dropLast, hx]
    obtain ⟨hres, herr, hflag⟩ := ih e2 t hfresh2
    -- The rewritten suffix is non-empty; name its head and tail.
    rcases hcons : (backupAux e2 rest t).1 with _ | ⟨y, ys⟩
    · exfalso
      have := backupAux_length rest e2 t
      rw [hcons] at this
      simp at this
    rw [hcons] at hres herr hflag
    simp only [backupAux, he, Bool.false_eq_true, if_false, hcons]
    simp only [undoBackup, undoAux, Bool.true_eq_false, if_true]
    constructor
    · simp only [undoBackup] at hres
      rw [undoAux_updQ ys y (backupAux e2 rest t).2.1 (entryKey e)
          (e.discount * e.reward + (backupAux e2 rest t).2.2) 1, hres]
      exact updQ_cancel t (entryKey e) _ _
    constructor
    · simpa [undoBackup,
        (undoAux_entries_indep ys y
          (updQ (backupAux e2 rest t).2.1 (entryKey e)
            (e.discount * e.reward + (backupAux e2 rest t).2.2) 1)
          (backupAux e2 rest t).2.1).2] using herr
    · intro x hx
      have hxy : (undoAux y ys
          (updQ (backupAux e2 rest t).2.1 (entryKey e)
            (e.discount * e.reward + (backupAux e2 rest t).2.2) 1)).1 =
          (undoAux y ys (backupAux e2 rest t).2.1).1 :=
        (undoAux_entries_indep ys y _ _).1
      rw [hxy] at hx
      rcases hu : (undoAux y ys (backupAux e2 rest t).2.1).1 with _ | ⟨z, zs⟩
      · rw [hu] at hx; simp [List.dropLast] at hx
      · rw [hu] at hx
        simp only [List.dropLast] at hx
        rcases List.mem_cons.1 hx with hx1 | hx2
        · subst hx1; rfl
        · refine hflag x ?_
          simp [undoBackup, hu, List.dropLast, hx2]

/-- Counterexample to claim C2 as stated: for a sequence whose non-final
entry was already backed up before the call, `backup` followed by
`undoBackup` does not restore the belief node's statistics: starting from the
all-zero table, the total Q at that entry's key ends at `-1` and its visit
count at `-1`. -/
theorem backup_undo_not_restoring_cex :
    (undoBackup
        (backup [⟨0, some 0, 1, 1, 1, true⟩, ⟨9, some 1, 1, 2, 0, false⟩]
          qZero).1
        (backup [⟨0, some 0, 1, 1, 1, true⟩, ⟨9, some 1, 1, 2, 0, false⟩]
          qZero).2).2.1 (0, 0) ≠ qZero (0, 0) := by
  norm_num [backup, backupAux, undoBackup, undoAux, updQ, entryKey, qZero,
    Prod.ext_iff]

/-- Claim C2 (amended): for every `HistorySequence` none of whose non-final
entries is flagged `hasBeenBackedUp`, performing `backup(seq)` and then
`undoBackup(seq)` restores every belief node's total Q and visit count to
their values before the backup, clears every `hasBeenBackedUp` flag the
backup set, and prints no error. -/
theorem backup_then_undo_restores (entries : List Entry) (t : QState)
    (hne : entries ≠ [])
    (hfresh : ∀ x ∈ entries.dropLast, x.backedUp = false) :
    (undoBackup (backup entries t).1 (backup entries t).2).2.1 = t ∧
    (undoBackup (backup entries t).1 (backup entries t).2).2.2 = 0 ∧
    (∀ x ∈ (undoBackup (backup entries t).1
        (backup entries t).2).1.dropLast, x.backedUp = false) := by
  cases entries with
  | nil => exact absurd rfl hne
  | cons e rest =>
    simpa [backup] using backup_undo_main rest e t hfresh

/-- Witness for C2 at a concrete fresh two-entry sequence: the statistics at
key `(1, 0)` are restored and no error is printed. -/
theorem backup_then_undo_restores_witness :
    ([⟨1, some 0, 1/2, 3, 0, false⟩, ⟨2, none, 1/4, 0, 7, false⟩] :
        List Entry) ≠ [] ∧
    (undoBackup
        (backup [⟨1, some 0, 1/2, 3, 0, false⟩, ⟨2, none, 1/4, 0, 7, false⟩]
          qZero).1
        (backup [⟨1, some 0, 1/2, 3, 0, false⟩, ⟨2, none, 1/4, 0, 7, false⟩]
          qZero).2).2.1 = qZero ∧
    (undoBackup
        (backup [⟨1, some 0, 1/2, 3, 0, false⟩, ⟨2, none, 1/4, 0, 7, false⟩]
          qZero).1
        (backup [⟨1, some 0, 1/2, 3, 0, false⟩, ⟨2, none, 1/4, 0, 7, false⟩]
          qZero).2).2.2 = 0 :=
  ⟨by simp,
    (backup_then_undo_restores
      [⟨1, some 0, 1/2, 3, 0, false⟩, ⟨2, none, 1/4, 0, 7, false⟩] qZero
      (by simp) (by simp [List.dropLast])).1,
    (backup_then_undo_restores
      [⟨1, some 0, 1/2, 3, 0, false⟩, ⟨2, none, 1/4, 0, 7, false⟩] qZero
      (by simp) (by simp [List.dropLast])).2.1⟩

lemma undoAux_errs (rest : List Entry) : ∀ (e : Entry) (t : QState),
    (undoAux e rest t).2.2 =
      ((e :: rest).dropLast.filter (fun x => !x.backedUp)).length ∧
    (∀ x ∈ (undoAux e rest t).1.dropLast, x.backedUp = false) ∧
    (undoAux e rest t).1.length = rest.length + 1 := by
  induction rest with
  | nil => intro e t; simp [undoAux]
  | cons e2 rest ih =>
    intro e t
    obtain ⟨ih1, ih2, ih3⟩ := ih e2 t
    rcases hu : (undoAux e2 rest t).1 with _ | ⟨z, zs⟩
    · rw [hu] at ih3; simp at ih3
    · rw [hu] at ih2 ih3
      by_cases hb : e.backedUp
      · refine ⟨?_, ?_, ?_⟩
        · simp [undoAux, hb, List.dropLast, ih1]
        · intro x hx
          simp only [undoAux, hb, if_true, hu, List.dropLast] at hx
          rcases List.mem_cons.1 hx with hx1 | hx2
          · subst hx1; rfl
          · exact ih2 x hx2
        · simp [undoAux, hb, hu]
          simp [hu] at ih3
          omega
      · refine ⟨?_, ?_, ?_⟩
        · simp [undoAux, hb, List.dropLast, ih1]
        · intro x hx
          simp only [undoAux, hb, Bool.false_eq_true, if_false, hu,
            List.dropLast] at hx
          rcases List.mem_cons.1 hx with hx1 | hx2
          · subst hx1; simpa using hb
          · exact ih2 x hx2
        · simp [undoAux, hb, hu]
          simp [hu] at ih3
          omega

/-- Counterexample to claim C5 as stated: `Solver::undoBackup` on a sequence
whose middle entry is not backed up does not abort; it prints one error
message and still processes the earlier entry (its belief node's visit count
is decremented to `-1`). -/
theorem undoBackup_continues_cex :
    (undoBackup [⟨0, some 0, 1, 0, 2, true⟩, ⟨1, some 0, 1, 0, 2, false⟩,
        ⟨2, none, 1, 0, 0, false⟩] qZero).2.2 = 1 ∧
    (undoBackup [⟨0, some 0, 1, 0, 2, true⟩, ⟨1, some 0, 1, 0, 2, false⟩,
        ⟨2, none, 1, 0, 0, false⟩] qZero).2.1 (0, 0) ≠ qZero (0, 0) := by
  constructor
  · norm_num [undoBackup, undoAux]
  · norm_num [undoBackup, undoAux, updQ, entryKey, qZero, Prod.ext_iff]

/-- Claim C5 (amended): when `Solver::undoBackup` encounters a non-final
entry whose `hasBeenBackedUp` flag is false, it prints an error message to
the diagnostic stream and continues with the remaining entries; it never
aborts: it always returns normally with one error message per such entry,
and every non-final entry of the result has its flag cleared. -/
theorem undoBackup_logs_and_continues (entries : List Entry) (t : QState) :
    (undoBackup entries t).2.2 =
      (entries.dropLast.filter (fun x => !x.backedUp)).length ∧
    (∀ x ∈ (undoBackup entries t).1.dropLast, x.backedUp = false) ∧
    (undoBackup entries t).1.length = entries.length := by
  cases entries with
  | nil => simp [undoBackup]
  | cons e rest =>
    obtain ⟨h1, h2, h3⟩ := undoAux_errs rest e t
    exact ⟨h1, h2, by simpa [undoBackup] using h3⟩

/-- Witness for C5 (amended) at the concrete three-entry sequence used in
the counterexample: exactly one error message is printed. -/
theorem undoBackup_logs_and_continues_witness :
    (undoBackup [⟨0, some 0, 1, 0, 2, true⟩, ⟨1, some 0, 1, 0, 2, false⟩,
        ⟨2, none, 1, 0, 0, false⟩] qZero).2.2 =
      (([⟨0, some 0, 1, 0, 2, true⟩, ⟨1, some 0, 1, 0, 2, false⟩,
        ⟨2, none, 1, 0, 0, false⟩] :
          List Entry).dropLast.filter (fun x => !x.backedUp)).length ∧
    (undoBackup [⟨0, some 0, 1, 0, 2, true⟩, ⟨1, some 0, 1, 0, 2, false⟩,
        ⟨2, none, 1, 0, 0, false⟩] qZero).1.length = 3 :=
  ⟨(undoBackup_logs_and_continues [⟨0, some 0, 1, 0, 2, true⟩,
      ⟨1, some 0, 1, 0, 2, false⟩, ⟨2, none, 1, 0, 0, false⟩] qZero).1,
    (undoBackup_logs_and_continues [⟨0, some 0, 1, 0, 2, true⟩,
      ⟨1, some 0, 1, 0, 2, false⟩, ⟨2, none, 1, 0, 0, false⟩] qZero).2.2⟩

/-- Modelled from the spec: the single `HistoryEntry` that `Solver::addChild`
creates for a synthesized particle.  `HistoryEntry`'s constructor (in
`HistoryEntry.cpp`, outside the given sources) initializes the reward and
`totalDiscountedReward_` to zero and leaves `action_` null; `addChild`
supplies the discount `currentDiscount * discountFactor`. -/
def addChildEntry (d : ℚ) (node : Nat) : Entry := ⟨node, none, d, 0, 0, false⟩

/-- Counterexample to claim C7 as stated: for a single-entry sequence whose
entry took no action and carries a pre-set `totalDiscountedReward` of `5`,
`backup` leaves the value at `5`, which is not `discount * reward = 1/2`. -/
theorem backup_single_preset_cex :
    (((backup [⟨0, none, 1/2, 1, 5, false⟩] qZero).1.getD 0 dEntry).tdr = 5) ∧
    (5 : ℚ) ≠ (1/2 : ℚ) * 1 := by
  constructor
  · norm_num [backup, backupAux]
  · norm_num

/-- Claim C7 (amended): `backup` on a single-entry sequence sets the entry's
`totalDiscountedReward` to `discount * reward` when the entry has an action;
when the entry's action was never set, `backup` leaves the pre-set value
unchanged.  In particular, for the action-less zero-reward entries that
`addChild` creates, the value after backup still equals
`discount * reward = 0`. -/
theorem backup_single_entry (e : Entry) (t : QState) (d : ℚ) (nd : Nat) :
    (e.action = none → (backup [e] t).1 = [e] ∧ (backup [e] t).2 = t) ∧
    (∀ a, e.action = some a →
      (backup [e] t).1 = [{ e with tdr := e.discount * e.reward }] ∧
      (backup [e] t).2 = t) ∧
    ((backup [addChildEntry d nd] t).1.getD 0 dEntry).tdr =
      (addChildEntry d nd).discount * (addChildEntry d nd).reward := by
  refine ⟨?_, ?_, ?_⟩
  · intro h; simp [backup, backupAux, h]
  · intro a h; simp [backup, backupAux, h]
  · simp [backup, backupAux, addChildEntry]

/-- Witness for C7 (amended) at a concrete action-less single entry. -/
theorem backup_single_entry_witness :
    (backup [⟨3, none, 1/2, 1, 5, false⟩] qZero).1 =
        [⟨3, none, 1/2, 1, 5, false⟩] ∧
    ((backup [addChildEntry (1/4) 2] qZero).1.getD 0 dEntry).tdr =
      (addChildEntry (1/4) 2).discount * (addChildEntry (1/4) 2).reward :=
  ⟨((backup_single_entry ⟨3, none, 1/2, 1, 5, false⟩ qZero 1 0).1 rfl).1,
    (backup_single_entry ⟨3, none, 1/2, 1, 5, false⟩ qZero (1/4) 2).2.2⟩

/-- An affected `HistorySequence` as the change engine sees it: its id in
`Histories` and whether its first entry is flagged `DELETED`. -/
structure CSeq where
  id : Nat
  entry0Deleted : Bool
deriving DecidableEq, Repr

/-- The observable operations `Solver::applyChanges` performs on a sequence:
`undo` is `undoBackup`, `purge` is erasure from the affected set together
with `Histories::deleteHistorySequence`, `revise` is the history corrector's
revision, `reint` is the reintegration step (`fixLinks`, flag reset, then
`backup` or `continueSearch`). -/
inductive ChangeEvent where
  | undo (id : Nat)
  | purge (id : Nat)
  | revise (id : Nat)
  | reint (id : Nat)
deriving DecidableEq, Repr

/-- The first loop of `Solver::applyChanges`: walk the affected set, call
`undoBackup` on each sequence, and erase-and-delete those whose entry 0 is
flagged `DELETED`.  Returns the events emitted and the surviving set. -/
def undoPurgePhase : List CSeq → List ChangeEvent × List CSeq
  | [] => ([], [])
  | s :: rest =>
    let r := undoPurgePhase rest
    if s.entry0Deleted then
      (ChangeEvent.undo s.id :: ChangeEvent.purge s.id :: r.1, r.2)
    else
      (ChangeEvent.undo s.id :: r.1, s :: r.2)

/-- The event trace of `Solver::applyChanges`: the undo-and-purge loop over
the whole affected set, then `HistoryCorrector::reviseHistories` over the
survivors, then the reintegration loop over the survivors. -/
def applyChangesTrace (seqs : List CSeq) : List ChangeEvent :=
  (undoPurgePhase seqs).1 ++
    (undoPurgePhase seqs).2.map (fun s => ChangeEvent.revise s.id) ++
    (undoPurgePhase seqs).2.map (fun s => ChangeEvent.reint s.id)

/-- Phase index of an event: undo and purge happen in the first loop,
revision in the second phase, reintegration in the third. -/
def phaseRank : ChangeEvent → Nat
  | .undo _ => 0
  | .purge _ => 0
  | .revise _ => 1
  | .reint _ => 2

lemma undoPurgePhase_events (seqs : List CSeq) :
    ∀ e ∈ (undoPurgePhase seqs).1, ∃ k,
      e = ChangeEvent.undo k ∨ e = ChangeEvent.purge k := by
  induction seqs with
  | nil => simp [undoPurgePhase]
  | cons s rest ih =>
    intro e he
    by_cases hd : s.entry0Deleted
    · simp only [undoPurgePhase, hd, if_true, List.mem_cons] at he
      rcases he with h | h | h
      · exact ⟨s.id, Or.inl h⟩
      · exact ⟨s.id, Or.inr h⟩
      · exact ih e h
    · simp only [undoPurgePhase, hd, Bool.false_eq_true, if_false,
        List.mem_cons] at he
      rcases he with h | h
      · exact ⟨s.id, Or.inl h⟩
      · exact ih e h

lemma undoPurgePhase_survivors (seqs : List CSeq) :
    ∀ s ∈ (undoPurgePhase seqs).2, s ∈ seqs ∧ s.entry0Deleted = false := by
  induction seqs with
  | nil => simp [undoPurgePhase]
  | cons s rest ih =>
    intro x hx
    by_cases hd : s.entry0Deleted
    · simp only [undoPurgePhase, hd, if_true] at hx
      obtain ⟨h1, h2⟩ := ih x hx
      exact ⟨List.mem_cons_of_mem s h1, h2⟩
    · simp only [undoPurgePhase, hd, Bool.false_eq_true, if_false,
        List.mem_cons] at hx
      rcases hx with h | h
      · subst h
        exact ⟨List.mem_cons_self x rest, by simpa using hd⟩
      · obtain ⟨h1, h2⟩ := ih x h
        exact ⟨List.mem_cons_of_mem s h1, h2⟩

lemma undoPurgePhase_purged (seqs : List CSeq) :
    ∀ s ∈ seqs, s.entry0Deleted = true →
      ChangeEvent.purge s.id ∈ (undoPurgePhase seqs).1 := by
  induction seqs with
  | nil => simp
  | cons s rest ih =>
    intro x hx hdel
    rcases List.mem_cons.1 hx with h | h
    · subst h
      simp [undoPurgePhase, hdel]
    · by_cases hd : s.entry0Deleted <;>
        simp [undoPurgePhase, hd, ih x h hdel]

lemma pairwise_le_of_const (l : List Nat) (c : Nat)
    (h : ∀ x ∈ l, x = c) : l.Pairwise (· ≤ ·) := by
  induction l with
  | nil => simp
  | cons a l ih =>
    refine List.Pairwise.cons ?_ (ih fun x hx => h x (List.mem_cons_of_mem a hx))
    intro b hb
    rw [h a (List.mem_cons_self a l), h b (List.mem_cons_of_mem a hb)]

/-- Claim C3: in every execution of `Solver::applyChanges` (any iteration
order of the affected set), the trace respects the three barriers — every
`undoBackup` precedes every revision, and every revision precedes every
reintegration (the trace is sorted by phase); moreover, assuming distinct
sequence ids, a sequence whose first entry is flagged `DELETED` is purged
(erased from the affected set and deleted from `Histories`) and is never
revised or reintegrated. -/
theorem applyChanges_barriers (seqs : List CSeq)
    (hids : (seqs.map CSeq.id).Nodup) :
    ((applyChangesTrace seqs).map phaseRank).Sorted (· ≤ ·) ∧
    (∀ s ∈ seqs, s.entry0Deleted = true →
      ChangeEvent.purge s.id ∈ applyChangesTrace seqs ∧
      ChangeEvent.revise s.id ∉ applyChangesTrace seqs ∧
      ChangeEvent.reint s.id ∉ applyChangesTrace seqs) := by
  constructor
  · rw [List.Sorted, applyChangesTrace, List.map_append, List.map_append,
      List.pairwise_append, List.pairwise_append]
    have hA : ∀ x ∈ (undoPurgePhase seqs).1.map phaseRank, x = 0 := by
      intro x hx
      obtain ⟨e, he, hex⟩ := List.mem_map.1 hx
      obtain ⟨k, hk | hk⟩ := undoPurgePhase_events seqs e he <;>
        simp [← hex, hk, phaseRank]
    have hB : ∀ x ∈ ((undoPurgePhase seqs).2.map
        (fun s => ChangeEvent.revise s.id)).map phaseRank, x = 1 := by
      intro x hx
      obtain ⟨e, he, hex⟩ := List.mem_map.1 hx
      obtain ⟨s, _, hs⟩ := List.mem_map.1 he
      simp [← hex, ← hs, phaseRank]
    have hC : ∀ x ∈ ((undoPurgePhase seqs).2.map
        (fun s => ChangeEvent.reint s.id)).map phaseRank, x = 2 := by
      intro x hx
      obtain ⟨e, he, hex⟩ := List.mem_map.1 hx
      obtain ⟨s, _, hs⟩ := List.mem_map.1 he
      simp [← hex, ← hs, phaseRank]
    refine ⟨⟨pairwise_le_of_const _ 0 hA, pairwise_le_of_const _ 1 hB,
      ?_⟩, pairwise_le_of_const _ 2 hC, ?_⟩
    · intro a ha b hb
      rw [hA a ha, hB b hb]
      omega
    · intro a ha b hb
      rw [hC b hb]
      rcases List.mem_append.1 ha with h | h
      · rw [hA a h]; omega
      · rw [hB a h]; omega
  · intro s hs hdel
    have hinj := List.inj_on_of_nodup_map hids
    refine ⟨?_, ?_, ?_⟩
    · have := undoPurgePhase_purged seqs s hs hdel
      simp [applyChangesTrace, this]
    · intro hmem
      rcases List.mem_append.1 hmem with h | h
      · rcases List.mem_append.1 h with h' | h'
        · obtain ⟨k, hk | hk⟩ := undoPurgePhase_events seqs _ h' <;>
            simp at hk
        · obtain ⟨u, hu, huid⟩ := List.mem_map.1 h'
          obtain ⟨hu1, hu2⟩ := undoPurgePhase_survivors seqs u hu
          have hid : u.id = s.id := by
            simpa using huid
          have : u = s := hinj hu1 hs hid
          rw [this] at hu2
          rw [hdel] at hu2
          exact absurd hu2 (by simp)
      · obtain ⟨u, hu, huid⟩ := List.mem_map.1 h
        simp at huid
    · intro hmem
      rcases List.mem_append.1 hmem with h | h
      · rcases List.mem_append.1 h with h' | h'
        · obtain ⟨k, hk | hk⟩ := undoPurgePhase_events seqs _ h' <;>
            simp at hk
        · obtain ⟨u, hu, huid⟩ := List.mem_map.1 h'
          simp at huid
      · obtain ⟨u, hu, huid⟩ := List.mem_map.1 h
        obtain ⟨hu1, hu2⟩ := undoPurgePhase_survivors seqs u hu
        have hid : u.id = s.id := by
          simpa using huid
        have : u = s := hinj hu1 hs hid
        rw [this] at hu2
        rw [hdel] at hu2
        exact absurd hu2 (by simp)

/-- Witness for C3 at a concrete affected set with one deleted and one
surviving sequence. -/
theorem applyChanges_barriers_witness :
    ((applyChangesTrace [⟨0, true⟩, ⟨1, false⟩]).map phaseRank).Sorted
        (· ≤ ·) ∧
    ChangeEvent.purge 0 ∈ applyChangesTrace [⟨0, true⟩, ⟨1, false⟩] ∧
    ChangeEvent.revise 0 ∉ applyChangesTrace [⟨0, true⟩, ⟨1, false⟩] :=
  ⟨(applyChanges_barriers [⟨0, true⟩, ⟨1, false⟩] (by decide)).1,
    ((applyChanges_barriers [⟨0, true⟩, ⟨1, false⟩] (by decide)).2
      ⟨0, true⟩ (by decide) rfl).1,
    ((applyChanges_barriers [⟨0, true⟩, ⟨1, false⟩] (by decide)).2
      ⟨0, true⟩ (by decide) rfl).2.1⟩

/-- Embedding of `Solver::improveSol(startNode, maxTrials, maximumDepth)`.  The node is
represented by its particle list (state references); `rng` is the stream of
draws of `std::uniform_int_distribution(0, nParticles - 1)`, modelled as
arbitrary naturals reduced into range.  `std::exit(10)` is modelled as
`Except.error 10`; the `.ok` payload is the list of start states of the
`singleSearch` trials launched, in order.  (The inner scan of
`statesByIndex_` only prints a diagnostic and is omitted.) -/
def improveSol (particles : List Nat) (maxTrials : Nat) (rng : List Nat) :
    Except Nat (List Nat) :=
  if particles.length = 0 then Except.error 10
  else Except.ok ((List.range maxTrials).map
    (fun i => particles.getD (rng.getD i 0 % particles.length) 0))

/-- Claim C9: `improveSol` on a node with zero particles exits with status 10
before launching any search trial; on a node with at least one particle the
fatal branch is unreachable and exactly `maxTrials` single searches are
launched, each from a particle of that node. -/
theorem improveSol_spec (particles : List Nat) (maxTrials : Nat)
    (rng : List Nat) :
    (particles = [] →
      improveSol particles maxTrials rng = Except.error 10) ∧
    (particles ≠ [] → ∃ l, improveSol particles maxTrials rng = Except.ok l ∧
      l.length = maxTrials ∧ ∀ x ∈ l, x ∈ particles) := by
  constructor
  · intro h
    subst h
    simp [improveSol]
  · intro h
    have hlen : particles.length ≠ 0 := by
      simpa [List.length_eq_zero] using h
    refine ⟨(List.range maxTrials).map
      (fun i => particles.getD (rng.getD i 0 % particles.length) 0),
      by simp [improveSol, hlen], by simp, ?_⟩
    intro x hx
    obtain ⟨i, _, hix⟩ := List.mem_map.1 hx
    have hmod : rng.getD i 0 % particles.length < particles.length :=
      Nat.mod_lt _ (Nat.pos_of_ne_zero hlen)
    rw [← hix, List.getD_eq_getElem particles 0 hmod]
    exact List.getElem_mem hmod

/-- Witness for C9: with two particles and three trials, three searches are
launched from particles of the node; with no particles, exit status 10. -/
theorem improveSol_spec_witness :
    improveSol [] 3 [0, 5, 7] = Except.error 10 ∧
    (∃ l, improveSol [4, 6] 3 [0, 5, 7] = Except.ok l ∧ l.length = 3 ∧
      ∀ x ∈ l, x ∈ [4, 6]) :=
  ⟨(improveSol_spec [] 3 [0, 5, 7]).1 rfl,
    (improveSol_spec [4, 6] 3 [0, 5, 7]).2 (by simp)⟩

/-- Embedding of `Vector::equals` from `src/solver/Vector.cpp`: the loop runs over the
receiver's own components, comparing against the other point's components in
lockstep; a mismatch returns `false`, exhausting the receiver returns
`true`.  When the receiver is strictly longer and the shared prefix matches,
the C++ loop dereferences past the end of the other vector — undefined
behaviour, modelled as `none`. -/
def vectorEquals : List ℚ → List ℚ → Option Bool
  | [], _ => some true
  | _ :: _, [] => none
  | x :: xs, y :: ys => if x = y then vectorEquals xs ys else some false

/-- Claim C10: `Vector::equals` compares only the components up to the
receiver's own length: on equal lengths it is componentwise equality; when
the other vector strictly extends the receiver the trailing components are
ignored and the result is `true`; hence `equals` is not symmetric across
lengths — the mirrored call compares more components and is not guaranteed
to return `true` (it runs past the end of the shorter vector). -/
theorem vector_equals_spec (v1 v2 e : List ℚ) :
    (v1.length = v2.length →
      (vectorEquals v1 v2 = some true ↔ v1 = v2)) ∧
    (e ≠ [] → vectorEquals v1 (v1 ++ e) = some true) ∧
    (vectorEquals [0] [0, 1] = some true ∧
      vectorEquals [0, 1] [0] ≠ some true) := by
  have hv : vectorEquals [0, 1] [0] = none := by norm_num [vectorEquals]
  refine ⟨?_, ?_, by norm_num [vectorEquals],
    by rw [hv]; exact fun h => Option.noConfusion h⟩
  · induction v1 generalizing v2 with
    | nil =>
      intro hlen
      cases v2 with
      | nil => simp [vectorEquals]
      | cons y ys => simp at hlen
    | cons x xs ih =>
      intro hlen
      cases v2 with
      | nil => simp at hlen
      | cons y ys =>
        have hlen' : xs.length = ys.length := by simpa using hlen
        by_cases hxy : x = y
        · subst hxy
          simp only [vectorEquals, if_pos rfl, List.cons.injEq, true_and]
          exact ih ys hlen'
        · simp [vectorEquals, hxy]
  · intro _
    induction v1 with
    | nil => simp [vectorEquals]
    | cons x xs ih => simpa [vectorEquals] using ih

/-- Witness for C10: equal-length comparison coincides with equality, and a
strict extension is accepted. -/
theorem vector_equals_spec_witness :
    (vectorEquals [1, 2] [1, 2] = some true ↔
      ([1, 2] : List ℚ) = [1, 2]) ∧
    vectorEquals [3] ([3] ++ [4]) = some true :=
  ⟨(vector_equals_spec [1, 2] [1, 2] [4]).1 rfl,
    (vector_equals_spec [3] [3] [4]).2.1 (by simp)⟩

/-- The two rollout modes of the Solver: `ROLLOUT_RANDHEURISTIC` and
`ROLLOUT_POL` (policy transplant). -/
inductive RolloutMode where
  | randHeuristic
  | pol
deriving DecidableEq, Repr

/-- Embedding of `Model::StepResult` (action id, observation id, reward, next state id,
terminal flag). -/
structure StepRes where
  act : Nat
  obs : Nat
  reward : ℚ
  nextState : Nat
  isTerminal : Bool
deriving DecidableEq, Repr

/-- The Model- and tree-supplied operations `getRolloutAction`,
`rolloutPolHelper` and `getNNBelNode` depend on, as pure functions over
integer ids: `generateStep`, `getHeuristicValue`, `getNextActionToTry`,
`getBestAction`, `getChild`, `getNParticles`, `getNActChildren`,
`distL1Independent`, `getMaxNnComparisons` and `getMaxNnDistance`. -/
structure World where
  generateStep : Nat → Nat → StepRes
  heuristicValue : Nat → ℚ
  nextActionToTry : Nat → Nat
  bestAction : Nat → Nat
  getChild : Nat → Nat → Nat → Option Nat
  nParticles : Nat → Nat
  nActChildren : Nat → Nat
  distL1 : Nat → Nat → ℚ
  maxNnComparisons : Nat
  maxNnDistance : ℚ

/-- The mutable per-belief-node fields `getNNBelNode` reads and writes:
`tNNComp_`, `tLastAddedParticle_` and the cached `nnBel_`. -/
structure NodeData where
  tNNComp : ℚ
  tLastAddedParticle : ℚ
  nnBel : Option Nat
deriving DecidableEq, Repr

/-- Comparison `d < minDist` where `minDist` starts at `+infinity` (`none`). -/
def ltMinDist (d : ℚ) : Option ℚ → Bool
  | none => true
  | some m => decide (d < m)

/-- Comparison `minDist > maxNnDistance` where `minDist` may still be `+infinity`. -/
def minDistTooFar : Option ℚ → ℚ → Bool
  | none, _ => true
  | some d, maxD => decide (maxD < d)

/-- The scan loop of `Solver::getNNBelNode`: walk `allNodes_` in insertion
order, stop after `maxNnComparisons` tries, consider only nodes whose
`tLastAddedParticle_` is newer than the querying node's `tNNComp_`, and track
the minimum `distL1Independent`. -/
def nnScan (w : World) (nodes : Nat → NodeData) (b : Nat) :
    List Nat → Nat → Option ℚ → Option Nat → Option ℚ × Option Nat
  | [], _, minDist, nnBel => (minDist, nnBel)
  | n :: rest, numTried, minDist, nnBel =>
    if w.maxNnComparisons ≤ numTried then (minDist, nnBel)
    else if (nodes b).tNNComp < (nodes n).tLastAddedParticle then
      if ltMinDist (w.distL1 b n) minDist then
        nnScan w nodes b rest (numTried + 1) (some (w.distL1 b n)) (some n)
      else nnScan w nodes b rest (numTried + 1) minDist nnBel
    else nnScan w nodes b rest (numTried + 1) minDist nnBel

/-- Pointwise update of the node-data table. -/
def updNodes (nodes : Nat → NodeData) (k : Nat) (v : NodeData) :
    Nat → NodeData :=
  fun k' => if k' = k then v else nodes k'

/-- Embedding of `Solver::getNNBelNode(b)`: scan for the nearest fresh neighbour, then
record the scan time (`clockNow`, read from `std::clock()`) in `b`'s
`tNNComp_` and cache the neighbour; return `none` when the minimum distance
(still `+infinity` if nothing fresh was seen) exceeds `maxNnDistance`. -/
def getNNBelNode (w : World) (nodes : Nat → NodeData) (allNodes : List Nat)
    (b : Nat) (clockNow : ℚ) : Option Nat × (Nat → NodeData) :=
  let s := nnScan w nodes b allNodes 0 none (nodes b).nnBel
  (if minDistTooFar s.1 w.maxNnDistance then none else s.2,
    updNodes nodes b { nodes b with tNNComp := clockNow, nnBel := s.2 })

/-- Embedding of `Solver::rolloutPolHelper`: greedy descent from a transplanted belief
node, accumulating discounted reward; a null node, an empty particle set or
a childless node yields `0`.  The C++ recursion is unbounded; `fuel` bounds
the modelled recursion depth, and every theorem below only exercises
executions that terminate within it. -/
def rolloutPolHelper (w : World) : Nat → Option Nat → Nat → ℚ → ℚ
  | 0, _, _, _ => 0
  | _ + 1, none, _, _ => 0
  | fuel + 1, some n, s, df =>
    if w.nParticles n = 0 then 0
    else if w.nActChildren n = 0 then 0
    else
      if (w.generateStep s (w.bestAction n)).isTerminal then
        (w.generateStep s (w.bestAction n)).reward
      else
        (w.generateStep s (w.bestAction n)).reward +
          df * rolloutPolHelper w fuel
            (w.getChild n (w.bestAction n)
              (w.generateStep s (w.bestAction n)).obs)
            (w.generateStep s (w.bestAction n)).nextState df

/-- The Solver's rollout bookkeeping state: the Bernoulli probability of
`ROLLOUT_RANDHEURISTIC`, and per-mode `heuristicUseCount_` and
`timeUsedPerHeuristic_`. -/
structure RolloutStats where
  pRand : ℚ
  useRand : Nat
  usePol : Nat
  timeRand : ℚ
  timePol : ℚ
deriving DecidableEq, Repr

/-- The result of one `Solver::getRolloutAction` invocation: the step
result, the discounted Q estimate, the final `lastRolloutMode_`, the updated
statistics and the updated node-data table. -/
structure RolloutOut where
  result : StepRes
  qVal : ℚ
  mode : RolloutMode
  stats : RolloutStats
  nodes : Nat → NodeData

/-- Embedding of `Solver::getRolloutAction`.  Here `u` is the uniform draw consumed by
`std::bernoulli_distribution(p[RANDHEURISTIC])` (true iff `u < p`); `clk` is
the stream of `std::clock()` readings consumed in program order (attempt
start, the reading inside `getNNBelNode` on the POL path, then the block's
end — or, on the downgrade path, the RANDHEURISTIC block's start and end);
`cps` scales tick differences to milliseconds as `* 1000 / CLOCKS_PER_SEC`
does. -/
def getRolloutAction (w : World) (nodes : Nat → NodeData)
    (allNodes : List Nat) (b s : Nat) (startDiscount discountFactor : ℚ)
    (st : RolloutStats) (u : ℚ) (clk : List ℚ) (cps : ℚ) (fuel : Nat) :
    RolloutOut :=
  let result := w.generateStep s (w.nextActionToTry b)
  if u < st.pRand then
    -- the Bernoulli draw selected ROLLOUT_RANDHEURISTIC directly
    let t0 := clk.getD 0 0
    let t1 := clk.getD 1 0
    ⟨result,
      if result.isTerminal then 0
      else w.heuristicValue result.nextState *
        (startDiscount * discountFactor),
      RolloutMode.randHeuristic,
      { st with
        timeRand := st.timeRand + (t1 - t0) * 1000 / cps,
        useRand := st.useRand + 1 },
      nodes⟩
  else
    let t0 := clk.getD 0 0
    let g := getNNBelNode w nodes allNodes b (clk.getD 1 0)
    match g.1 with
    | some nn =>
      let t1 := clk.getD 2 0
      ⟨result,
        rolloutPolHelper w fuel
            (w.getChild nn (w.nextActionToTry b) result.obs)
            result.nextState discountFactor *
          (startDiscount * discountFactor),
        RolloutMode.pol,
        { st with
          timePol := st.timePol + (t1 - t0) * 1000 / cps,
          usePol := st.usePol + 1 },
        g.2⟩
    | none =>
      -- no usable neighbour: silently fall back to ROLLOUT_RANDHEURISTIC
      let t2 := clk.getD 2 0
      let t3 := clk.getD 3 0
      ⟨result,
        if result.isTerminal then 0
        else w.heuristicValue result.nextState *
          (startDiscount * discountFactor),
        RolloutMode.randHeuristic,
        { st with
          timeRand := st.timeRand + (t3 - t2) * 1000 / cps,
          useRand := st.useRand + 1 },
        g.2⟩

lemma rolloutPolHelper_degenerate (w : World) (fuel : Nat)
    (child : Option Nat) (s : Nat) (df : ℚ)
    (h : child = none ∨ ∃ c, child = some c ∧
      (w.nParticles c = 0 ∨ w.nActChildren c = 0)) :
    rolloutPolHelper w fuel child s df = 0 := by
  rcases h with h | ⟨c, hc, hcase⟩
  · subst h; cases fuel <;> simp [rolloutPolHelper]
  · subst hc
    cases fuel with
    | zero => simp [rolloutPolHelper]
    | succ f =>
      rcases hcase with h0 | h0 <;>
        by_cases hp : w.nParticles c = 0 <;>
        simp [rolloutPolHelper, hp, h0]

/-- The concrete world used to settle claim C6: node 7 is a fresh
nearest-neighbour candidate within range, but its transplanted child (node
8) has an empty particle set. -/
def w6 : World :=
  ⟨fun s _ => ⟨0, 0, 0, s + 1, false⟩, fun _ => 50, fun _ => 0, fun _ => 0,
    fun n _ _ => if n = 7 then some 8 else none,
    fun n => if n = 8 then 0 else 1, fun _ => 1, fun _ _ => 1, 10, 2⟩

/-- Node data for C6: node 7 has a fresh particle timestamp. -/
def nodes6 : Nat → NodeData :=
  fun n => if n = 7 then ⟨0, 100, none⟩ else ⟨0, 0, none⟩

/-- Stale node data for C6's witness: nothing passes the freshness test, so
`getNNBelNode` returns null. -/
def nodes6b : Nat → NodeData := fun _ => ⟨5, 0, none⟩

/-- Counterexample to claim C6 as stated: when a nearest neighbour exists
but the descent immediately reaches a node with no particles, the rollout
does not downgrade: `lastRolloutMode_` stays `ROLLOUT_POL`, the invocation
is counted toward the policy-transplant statistics (its use count rises from
4 to 5 while RAND_HEURISTIC's stays 3), and the estimate is 0. -/
theorem rollout_no_particles_stays_pol_cex :
    (getRolloutAction w6 nodes6 [7] 1 0 1 (1/2) ⟨1/2, 3, 4, 1, 1⟩ (3/4)
        [0, 0, 0, 0] 1 5).mode = RolloutMode.pol ∧
    (getRolloutAction w6 nodes6 [7] 1 0 1 (1/2) ⟨1/2, 3, 4, 1, 1⟩ (3/4)
        [0, 0, 0, 0] 1 5).stats.useRand = 3 ∧
    (getRolloutAction w6 nodes6 [7] 1 0 1 (1/2) ⟨1/2, 3, 4, 1, 1⟩ (3/4)
        [0, 0, 0, 0] 1 5).stats.usePol = 5 ∧
    (getRolloutAction w6 nodes6 [7] 1 0 1 (1/2) ⟨1/2, 3, 4, 1, 1⟩ (3/4)
        [0, 0, 0, 0] 1 5).qVal = 0 := by
  norm_num [getRolloutAction, getNNBelNode, nnScan, minDistTooFar,
    ltMinDist, rolloutPolHelper, updNodes, w6, nodes6]

/-- Claim C6 (amended): when the Bernoulli draw selects the
policy-transplant rollout, then (a) if `getNNBelNode` finds no neighbour
within `maxNnDistance`, the rollout silently downgrades to
`ROLLOUT_RANDHEURISTIC` and the invocation is counted toward that mode's
usage statistics; but (b) if a neighbour exists and the descent immediately
reaches a missing child, a node with no particles, or a node with no
children, the rollout stays in `ROLLOUT_POL` mode with a zero tail estimate
and is counted toward the policy-transplant statistics. -/
theorem rollout_downgrade_behavior (w : World) (nodes : Nat → NodeData)
    (allNodes : List Nat) (b s : Nat) (sd df : ℚ) (st : RolloutStats)
    (u : ℚ) (clk : List ℚ) (cps : ℚ) (fuel : Nat)
    (hpol : ¬ u < st.pRand) :
    ((getNNBelNode w nodes allNodes b (clk.getD 1 0)).1 = none →
      (getRolloutAction w nodes allNodes b s sd df st u clk cps fuel).mode =
        RolloutMode.randHeuristic ∧
      (getRolloutAction w nodes allNodes b s sd df st u clk cps
        fuel).stats.useRand = st.useRand + 1 ∧
      (getRolloutAction w nodes allNodes b s sd df st u clk cps
        fuel).stats.usePol = st.usePol) ∧
    (∀ nn, (getNNBelNode w nodes allNodes b (clk.getD 1 0)).1 = some nn →
      (w.getChild nn (w.nextActionToTry b)
          (w.generateStep s (w.nextActionToTry b)).obs = none ∨
        ∃ c, w.getChild nn (w.nextActionToTry b)
            (w.generateStep s (w.nextActionToTry b)).obs = some c ∧
          (w.nParticles c = 0 ∨ w.nActChildren c = 0)) →
      (getRolloutAction w nodes allNodes b s sd df st u clk cps fuel).mode =
        RolloutMode.pol ∧
      (getRolloutAction w nodes allNodes b s sd df st u clk cps
        fuel).qVal = 0 ∧
      (getRolloutAction w nodes allNodes b s sd df st u clk cps
        fuel).stats.usePol = st.usePol + 1 ∧
      (getRolloutAction w nodes allNodes b s sd df st u clk cps
        fuel).stats.useRand = st.useRand) := by
  constructor
  · intro h
    simp only [getRolloutAction, h]
    simp [hpol]
  · intro nn h hchild
    have hq : rolloutPolHelper w fuel
        (w.getChild nn (w.nextActionToTry b)
          (w.generateStep s (w.nextActionToTry b)).obs)
        (w.generateStep s (w.nextActionToTry b)).nextState df = 0 :=
      rolloutPolHelper_degenerate w fuel _ _ df hchild
    simp only [getRolloutAction, h]
    simp [hpol, hq]

/-- Witness for C6 (amended), part (a): with stale node data no neighbour is
found, the rollout downgrades and RAND_HEURISTIC's use count is bumped. -/
theorem rollout_downgrade_behavior_witness :
    (getRolloutAction w6 nodes6b [7] 1 0 1 (1/2) ⟨1/2, 3, 4, 1, 1⟩ (3/4)
        [0, 0, 0, 0] 1 5).mode = RolloutMode.randHeuristic ∧
    (getRolloutAction w6 nodes6b [7] 1 0 1 (1/2) ⟨1/2, 3, 4, 1, 1⟩ (3/4)
        [0, 0, 0, 0] 1 5).stats.useRand = 3 + 1 ∧
    (getRolloutAction w6 nodes6b [7] 1 0 1 (1/2) ⟨1/2, 3, 4, 1, 1⟩ (3/4)
        [0, 0, 0, 0] 1 5).stats.usePol = 4 :=
  (rollout_downgrade_behavior w6 nodes6b [7] 1 0 1 (1/2) ⟨1/2, 3, 4, 1, 1⟩
      (3/4) [0, 0, 0, 0] 1 5 (by norm_num)).1
    (by norm_num [getNNBelNode, nnScan, minDistTooFar, ltMinDist, updNodes,
      w6, nodes6b])

/-- The concrete world used to settle claim C4: stepping from state 0 is
non-terminal with reward 0; stepping from state 1 is terminal with reward 9;
the heuristic value of every state is 50; node 7 (particle timestamp 5)
offers a transplant child, node 8. -/
def w4 : World :=
  ⟨fun s a => if s = 0 then ⟨a, 0, 0, 1, false⟩ else ⟨a, 0, 9, 2, true⟩,
    fun _ => 50, fun _ => 0, fun _ => 0,
    fun n _ _ => if n = 7 then some 8 else none,
    fun _ => 1, fun _ => 1, fun _ _ => 1, 10, 2⟩

/-- Node data for C4: node 7 last received a particle at clock tick 5. -/
def nodes4 : Nat → NodeData :=
  fun n => if n = 7 then ⟨0, 5, none⟩ else ⟨0, 0, none⟩

/-- Counterexample to claim C4 as stated: two executions fed the identical
pseudo-random draws (`u = 3/4` both times) but different `std::clock()`
readings inside the first `getNNBelNode` call (tick 3 versus tick 10)
diverge in the core: the cached `tNNComp_` differs, so the second rollout
finds a fresh neighbour in one run (mode `ROLLOUT_POL`, estimate `9/2`) and
none in the other (mode `ROLLOUT_RANDHEURISTIC`, estimate `25`).  The clock
is therefore a second source of nondeterminism besides the generator. -/
theorem same_seed_clock_divergence_cex :
    (getRolloutAction w4 (getNNBelNode w4 nodes4 [7] 1 3).2 [7] 1 0 1 (1/2)
        ⟨1/2, 1, 1, 1, 1⟩ (3/4) [0, 0, 0, 0] 1 5).qVal ≠
      (getRolloutAction w4 (getNNBelNode w4 nodes4 [7] 1 10).2 [7] 1 0 1
        (1/2) ⟨1/2, 1, 1, 1, 1⟩ (3/4) [0, 0, 0, 0] 1 5).qVal ∧
    (getRolloutAction w4 (getNNBelNode w4 nodes4 [7] 1 3).2 [7] 1 0 1 (1/2)
        ⟨1/2, 1, 1, 1, 1⟩ (3/4) [0, 0, 0, 0] 1 5).mode ≠
      (getRolloutAction w4 (getNNBelNode w4 nodes4 [7] 1 10).2 [7] 1 0 1
        (1/2) ⟨1/2, 1, 1, 1, 1⟩ (3/4) [0, 0, 0, 0] 1 5).mode := by
  refine ⟨by norm_num [getRolloutAction, getNNBelNode, nnScan, minDistTooFar,
    ltMinDist, rolloutPolHelper, updNodes, w4, nodes4], ?_⟩
  have h1 : (getRolloutAction w4 (getNNBelNode w4 nodes4 [7] 1 3).2 [7] 1 0
      1 (1/2) ⟨1/2, 1, 1, 1, 1⟩ (3/4) [0, 0, 0, 0] 1 5).mode =
      RolloutMode.pol := by
    norm_num [getRolloutAction, getNNBelNode, nnScan, minDistTooFar,
      ltMinDist, updNodes, w4, nodes4]
  have h2 : (getRolloutAction w4 (getNNBelNode w4 nodes4 [7] 1 10).2 [7] 1 0
      1 (1/2) ⟨1/2, 1, 1, 1, 1⟩ (3/4) [0, 0, 0, 0] 1 5).mode =
      RolloutMode.randHeuristic := by
    norm_num [getRolloutAction, getNNBelNode, nnScan, minDistTooFar,
      ltMinDist, updNodes, w4, nodes4]
  rw [h1, h2]
  exact fun hc => RolloutMode.noConfusion hc

/-- Claim C4 (amended): the search core is a pure function of the solver
state, the pseudo-random draws and the `std::clock()` readings — two
executions of the nearest-neighbour lookup followed by a rollout that agree
on the node table, the random draw and every clock reading produce identical
results.  (The counterexample above shows agreement on the clock readings is
necessary: the clock is a second nondeterminism source.) -/
theorem rollout_deterministic_same_seed_clock (w : World)
    (nodes1 nodes2 : Nat → NodeData) (allNodes : List Nat) (b s : Nat)
    (sd df : ℚ) (st : RolloutStats) (u1 u2 c1 c2 : ℚ)
    (clk1 clk2 : List ℚ) (cps : ℚ) (fuel : Nat)
    (hnodes : nodes1 = nodes2) (hu : u1 = u2) (hc : c1 = c2)
    (hclk : clk1 = clk2) :
    getRolloutAction w (getNNBelNode w nodes1 allNodes b c1).2 allNodes b s
        sd df st u1 clk1 cps fuel =
      getRolloutAction w (getNNBelNode w nodes2 allNodes b c2).2 allNodes b
        s sd df st u2 clk2 cps fuel := by
  subst hnodes; subst hu; subst hc; subst hclk; rfl

/-- Witness for C4 (amended) at the counterexample's concrete run: equal
clock readings give equal outcomes. -/
theorem rollout_deterministic_same_seed_clock_witness :
    getRolloutAction w4 (getNNBelNode w4 nodes4 [7] 1 3).2 [7] 1 0 1 (1/2)
        ⟨1/2, 1, 1, 1, 1⟩ (3/4) [0, 0, 0, 0] 1 5 =
      getRolloutAction w4 (getNNBelNode w4 nodes4 [7] 1 3).2 [7] 1 0 1
        (1/2) ⟨1/2, 1, 1, 1, 1⟩ (3/4) [0, 0, 0, 0] 1 5 :=
  rollout_deterministic_same_seed_clock w4 nodes4 nodes4 [7] 1 0 1 (1/2)
    ⟨1/2, 1, 1, 1, 1⟩ (3/4) (3/4) 3 3 [0, 0, 0, 0] [0, 0, 0, 0] 1 5
    rfl rfl rfl rfl

/-- The Solver's adaptive rollout-mixture state: per-mode weights
`heuristicWeight_`, probabilities `heuristicProbability_`, use counts
`heuristicUseCount_` and times `timeUsedPerHeuristic_`. -/
structure MixState where
  wRand : ℚ
  wPol : ℚ
  pRand : ℚ
  pPol : ℚ
  useRand : Nat
  usePol : Nat
  timeRand : ℚ
  timePol : ℚ
deriving DecidableEq, Repr

/-- The seed values the `Solver` constructor installs:
`heuristicWeight_{1.0, 1.0}`, `heuristicProbability_{0.5, 0.5}`,
`heuristicUseCount_{1, 1}`, `timeUsedPerHeuristic_{1.0, 1.0}`. -/
def mixSeed : MixState := ⟨1, 1, 1/2, 1/2, 1, 1, 1, 1⟩

/-- Embedding of `Solver::updateHeuristicProbabilities(valImprovement)`.  `std::exp` is
modelled by the parameter `expf`; the theorems below assume only its
positivity (`exp x > 0` for every real `x`).  `mode` is `lastRolloutMode_`,
`alpha` the `heuristicExploreCoefficient_`, `maxVal` the model's
`getMaxVal()`.  Negative improvements are clamped to zero, the chosen mode's
weight is scaled exponentially, and both probabilities are rebuilt from the
weights, use counts and times, then normalized. -/
def updateHeuristicProbabilities (expf : ℚ → ℚ) (alpha maxVal : ℚ)
    (mode : RolloutMode) (st : MixState) (valImprovement : ℚ) : MixState :=
  let v := if valImprovement < 0 then 0 else valImprovement
  let wR := if mode = RolloutMode.randHeuristic then
      st.wRand * expf (alpha * (v / maxVal) / (2 * st.pRand))
    else st.wRand
  let wP := if mode = RolloutMode.pol then
      st.wPol * expf (alpha * (v / maxVal) / (2 * st.pPol))
    else st.wPol
  let totW := wR + wP
  let pR := ((1 - alpha) * wR / totW + alpha / 2) *
    (st.useRand : ℚ) / st.timeRand
  let pP := ((1 - alpha) * wP / totW + alpha / 2) *
    (st.usePol : ℚ) / st.timePol
  let totP := pR + pP
  { st with
    wRand := wR,
    wPol := wP,
    pRand := pR / totP,
    pPol := pP / totP }

lemma mixture_update_general (expf : ℚ → ℚ) (alpha maxVal : ℚ)
    (mode : RolloutMode) (st : MixState) (valImprovement : ℚ)
    (hexp : ∀ x, 0 < expf x) (ha0 : 0 < alpha) (ha1 : alpha < 1)
    (hw1 : 0 < st.wRand) (hw2 : 0 < st.wPol)
    (hu1 : 0 < st.useRand) (hu2 : 0 < st.usePol)
    (ht1 : 0 < st.timeRand) (ht2 : 0 < st.timePol) :
    (updateHeuristicProbabilities expf alpha maxVal mode st
        valImprovement).pRand +
      (updateHeuristicProbabilities expf alpha maxVal mode st
        valImprovement).pPol = 1 ∧
    0 < (updateHeuristicProbabilities expf alpha maxVal mode st
      valImprovement).pRand ∧
    0 < (updateHeuristicProbabilities expf alpha maxVal mode st
      valImprovement).pPol := by
  set v := if valImprovement < 0 then 0 else valImprovement with hv
  set wR := if mode = RolloutMode.randHeuristic then
      st.wRand * expf (alpha * (v / maxVal) / (2 * st.pRand))
    else st.wRand with hwR
  set wP := if mode = RolloutMode.pol then
      st.wPol * expf (alpha * (v / maxVal) / (2 * st.pPol))
    else st.wPol with hwP
  have hwRpos : 0 < wR := by
    rw [hwR]
    by_cases hm : mode = RolloutMode.randHeuristic <;>
      simp [hm, mul_pos hw1 (hexp _), hw1]
  have hwPpos : 0 < wP := by
    rw [hwP]
    by_cases hm : mode = RolloutMode.pol <;>
      simp [hm, mul_pos hw2 (hexp _), hw2]
  have htotW : 0 < wR + wP := add_pos hwRpos hwPpos
  have hpR : 0 < ((1 - alpha) * wR / (wR + wP) + alpha / 2) *
      (st.useRand : ℚ) / st.timeRand := by
    apply div_pos _ ht1
    apply mul_pos _ (by exact_mod_cast hu1)
    exact add_pos (div_pos (mul_pos (by linarith) hwRpos) htotW)
      (by linarith)
  have hpP : 0 < ((1 - alpha) * wP / (wR + wP) + alpha / 2) *
      (st.usePol : ℚ) / st.timePol := by
    apply div_pos _ ht2
    apply mul_pos _ (by exact_mod_cast hu2)
    exact add_pos (div_pos (mul_pos (by linarith) hwPpos) htotW)
      (by linarith)
  have htotP : 0 < ((1 - alpha) * wR / (wR + wP) + alpha / 2) *
      (st.useRand : ℚ) / st.timeRand +
      ((1 - alpha) * wP / (wR + wP) + alpha / 2) *
      (st.usePol : ℚ) / st.timePol := add_pos hpR hpP
  refine ⟨?_, ?_, ?_⟩
  · show _ / _ + _ / _ = 1
    rw [div_add_div_same, div_self (ne_of_gt htotP)]
  · exact div_pos hpR htotP
  · exact div_pos hpP htotP

/-- Claim C8: after any call to `updateHeuristicProbabilities` from the
constructor's seed state (`p = {0.5, 0.5}`, `w = {1, 1}`,
`useCount = {1, 1}`, `timeUsed = {1.0, 1.0}`) with a heuristic-explore
coefficient in `(0, 1)` — the value improvement may be negative (it is
clamped to 0) or non-negative — the two mode probabilities sum to 1 and are
both strictly positive. -/
theorem mixture_update_sum_one (expf : ℚ → ℚ) (alpha maxVal : ℚ)
    (mode : RolloutMode) (valImprovement : ℚ)
    (hexp : ∀ x, 0 < expf x) (ha0 : 0 < alpha) (ha1 : alpha < 1) :
    (updateHeuristicProbabilities expf alpha maxVal mode mixSeed
        valImprovement).pRand +
      (updateHeuristicProbabilities expf alpha maxVal mode mixSeed
        valImprovement).pPol = 1 ∧
    0 < (updateHeuristicProbabilities expf alpha maxVal mode mixSeed
      valImprovement).pRand ∧
    0 < (updateHeuristicProbabilities expf alpha maxVal mode mixSeed
      valImprovement).pPol :=
  mixture_update_general expf alpha maxVal mode mixSeed valImprovement hexp
    ha0 ha1 (by norm_num [mixSeed]) (by norm_num [mixSeed])
    (by norm_num [mixSeed]) (by norm_num [mixSeed])
    (by norm_num [mixSeed]) (by norm_num [mixSeed])

/-- Witness for C8 with a positive stand-in for `exp`, `alpha = 1/2` and a
negative improvement. -/
theorem mixture_update_sum_one_witness :
    (updateHeuristicProbabilities (fun _ => 1) (1/2) 10
        RolloutMode.randHeuristic mixSeed (-3)).pRand +
      (updateHeuristicProbabilities (fun _ => 1) (1/2) 10
        RolloutMode.randHeuristic mixSeed (-3)).pPol = 1 ∧
    0 < (updateHeuristicProbabilities (fun _ => 1) (1/2) 10
      RolloutMode.randHeuristic mixSeed (-3)).pRand :=
  ⟨(mixture_update_sum_one (fun _ => 1) (1/2) 10 RolloutMode.randHeuristic
      (-3) (fun _ => by norm_num) (by norm_num) (by norm_num)).1,
    (mixture_update_sum_one (fun _ => 1) (1/2) 10 RolloutMode.randHeuristic
      (-3) (fun _ => by norm_num) (by norm_num) (by norm_num)).2.1⟩

end Tapir
